import Mathlib

/-!
Verification of the autocursor orchestration core against its specification.

The development shallowly embeds the core modules:
* `EventBus` (src/core/eventBus.ts): bounded event history.
* `MemoryStore` (src/core/memoryStore.ts): project contexts with a
  durable mirror (`disk` models the per-project JSON files).
* `AgentManager` (src/core/agentManager.ts): tracked agent instances.
* `AutoFlow` (src/core/autoFlow.ts): the workflow engine, its hardcoded
  phase-completion listeners and `proceedToNextPhase`.

JavaScript `Map`s and plain-object records are modelled as association
lists (`mapFind`/`mapSet`), `Date.now()` as an explicit `now : Nat`
argument, and `uuidv4()` as an explicit id argument.
-/

namespace Autocursor

/-- Lookup in an association list modelling a JS `Map` / object record
(first binding for the key wins; `mapSet` never creates duplicates). -/
def mapFind {β : Type} : List (String × β) → String → Option β
  | [], _ => none
  | (k, v) :: t, key => if k = key then some v else mapFind t key

/-- Model of `map.set(key, value)` / `obj[key] = value`: replace the first binding
for the key, or append a new binding. -/
def mapSet {β : Type} : List (String × β) → String → β → List (String × β)
  | [], key, value => [(key, value)]
  | (k, v) :: t, key, value =>
    if k = key then (key, value) :: t else (k, v) :: mapSet t key value

/-- Model of `map.delete(key)`: remove the first binding for the key. -/
def mapErase {β : Type} : List (String × β) → String → List (String × β)
  | [], _ => []
  | (k, v) :: t, key => if k = key then t else (k, v) :: mapErase t key

/-! ### Event type identifiers (`EventType` enum, src/core/eventBus.ts) -/

namespace EventType

def SYSTEM_INIT : String := "system.init"
def SYSTEM_ERROR : String := "system.error"
def PURPOSE_SELECTED : String := "purpose.selected"
def PROJECT_REALIGN : String := "project.realign"
def PROJECT_CREATED : String := "project.created"
def PROJECT_UPDATED : String := "project.updated"
def AGENT_CREATED : String := "agent.created"
def AGENT_STARTED : String := "agent.started"
def AGENT_COMPLETED : String := "agent.completed"
def AGENT_FAILED : String := "agent.failed"
def PHASE_REQUIREMENTS_START : String := "phase.requirements.start"
def PHASE_REQUIREMENTS_COMPLETE : String := "phase.requirements.complete"
def PHASE_ARCHITECTURE_START : String := "phase.architecture.start"
def PHASE_ARCHITECTURE_COMPLETE : String := "phase.architecture.complete"
def PHASE_DEVELOPMENT_START : String := "phase.development.start"
def PHASE_DEVELOPMENT_COMPLETE : String := "phase.development.complete"
def PHASE_TESTING_START : String := "phase.testing.start"
def PHASE_TESTING_COMPLETE : String := "phase.testing.complete"
def PHASE_DEVOPS_START : String := "phase.devops.start"
def PHASE_DEVOPS_COMPLETE : String := "phase.devops.complete"
def PHASE_DOCUMENTATION_START : String := "phase.documentation.start"
def PHASE_DOCUMENTATION_COMPLETE : String := "phase.documentation.complete"
def USER_MESSAGE : String := "user.message"
def LEAD_RESPONSE : String := "lead.response"

end EventType

/-! ### EventBus history (src/core/eventBus.ts) -/

/-- One entry of `eventHistory`: the event identifier together with the
payload's timestamp (payload fields beyond the timestamp are irrelevant
to the history claims). -/
structure HistoryEntry where
  event : String
  timestamp : Nat
deriving DecidableEq, Repr

/-- The `EventBus` class state relevant to the history: the private
`maxHistorySize` field (initialised to 1000 in the source) and the
`eventHistory` array. -/
structure EventBus where
  maxHistorySize : Nat := 1000
  eventHistory : List HistoryEntry := []
deriving DecidableEq, Repr

/-- Method `EventBus.addToHistory`: push the entry, then `shift()` the oldest
entry when the length exceeds `maxHistorySize`. -/
def EventBus.addToHistory (b : EventBus) (e : HistoryEntry) : EventBus :=
  let hist := b.eventHistory ++ [e]
  if hist.length > b.maxHistorySize then { b with eventHistory := hist.drop 1 }
  else { b with eventHistory := hist }

/-- Publishing a sequence of events, looking only at the history effect of
`EventBus.emit` (which appends to history via `addToHistory` before
dispatching to subscribers). -/
def EventBus.publishAll (b : EventBus) (es : List HistoryEntry) : EventBus :=
  es.foldl EventBus.addToHistory b

/-- The suffix of the `n` most recent elements of a list. -/
def takeLast {α : Type} (l : List α) (n : Nat) : List α :=
  l.drop (l.length - n)

/-! ### Project store data model (src/core/memoryStore.ts)

Opaque `any`-typed payload and artifact values are modelled as `String`;
the claims under study never inspect them. -/

/-- The `ProjectStatus` enum. -/
inductive ProjectStatus where
  | initializing
  | requirements
  | architecture
  | development
  | testing
  | devops
  | documentation
  | completed
  | failed
deriving DecidableEq, Repr

/-- The `PhaseData.status` values. -/
inductive PhaseStatus where
  | pending
  | in_progress
  | completed
  | failed
deriving DecidableEq, Repr

/-- Record `PhaseData`: a project's record for one phase.  TS-optional fields are
`Option`s (`none` = the key is absent / `undefined`). -/
structure PhaseData where
  name : String
  status : PhaseStatus
  startedAt : Option Nat := none
  completedAt : Option Nat := none
  result : Option String := none
  artifacts : Option (List (String × String)) := none
  notes : Option (List String) := none
deriving DecidableEq, Repr

/-- A `Partial<PhaseData>` argument: each field is `some v` when the key is
present in the object literal with value `v` (which may itself be
`undefined`, i.e. `none`), and `none` when the key is absent. -/
structure PartialPhaseData where
  name : Option String := none
  status : Option PhaseStatus := none
  startedAt : Option (Option Nat) := none
  completedAt : Option (Option Nat) := none
  result : Option (Option String) := none
  artifacts : Option (Option (List (String × String))) := none
  notes : Option (Option (List String)) := none
deriving DecidableEq, Repr

/-- The spread `{ ...old, ...partial }`: keys present in the partial object
overwrite the old record's fields. -/
def mergePhaseData (old : PhaseData) (p : PartialPhaseData) : PhaseData :=
  { name := p.name.getD old.name
    status := p.status.getD old.status
    startedAt := p.startedAt.getD old.startedAt
    completedAt := p.completedAt.getD old.completedAt
    result := p.result.getD old.result
    artifacts := p.artifacts.getD old.artifacts
    notes := p.notes.getD old.notes }

/-- Record `ConversationEntry`. -/
structure ConversationEntry where
  timestamp : Nat
  role : String
  message : String
  metadata : Option (List (String × String)) := none
deriving DecidableEq, Repr

/-- Record `TechStack` (opaque to the core). -/
structure TechStack where
  backend : Option (List String) := none
  frontend : Option (List String) := none
  database : Option (List String) := none
  infrastructure : Option (List String) := none
  testing : Option (List String) := none
  other : Option (List String) := none
deriving DecidableEq, Repr

/-- Record `ProjectContext`. -/
structure ProjectContext where
  id : String
  purposeId : String
  purposeName : String
  techStack : TechStack
  status : ProjectStatus
  createdAt : Nat
  updatedAt : Nat
  phases : List (String × PhaseData)
  artifacts : List (String × String)
  conversationHistory : List ConversationEntry
  metadata : List (String × String)
deriving DecidableEq, Repr

/-- The `MemoryStore` state.  `disk` models the per-project JSON documents in
the persistence directory; writing stores the full context snapshot
(`JSON.stringify`) and loading parses it back, which is the identity on
the modelled value domain. -/
structure MemoryStore where
  projects : List (String × ProjectContext) := []
  currentProjectId : Option String := none
  disk : List (String × ProjectContext) := []
deriving DecidableEq, Repr

/-- Method `MemoryStore.persist`: write the project's snapshot to its durable
document (no-op when the project is not in memory). -/
def MemoryStore.persist (s : MemoryStore) (projectId : String) : MemoryStore :=
  match mapFind s.projects projectId with
  | none => s
  | some project => { s with disk := mapSet s.disk projectId project }

/-- Method `MemoryStore.loadProject`: read the durable document back into memory,
returning the parsed context (or `none` when no document exists). -/
def MemoryStore.loadProject (s : MemoryStore) (projectId : String) :
    Option ProjectContext × MemoryStore :=
  match mapFind s.disk projectId with
  | some project => (some project, { s with projects := mapSet s.projects projectId project })
  | none => (none, s)

/-- Method `MemoryStore.createProject` (the generated `uuidv4()` id is passed as
the `newId` argument, `Date.now()` as `now`). -/
def MemoryStore.createProject (s : MemoryStore) (newId purposeId purposeName : String)
    (techStack : TechStack) (now : Nat) : ProjectContext × MemoryStore :=
  let project : ProjectContext :=
    { id := newId
      purposeId := purposeId
      purposeName := purposeName
      techStack := techStack
      status := ProjectStatus.initializing
      createdAt := now
      updatedAt := now
      phases := []
      artifacts := []
      conversationHistory := []
      metadata := [] }
  let s := { s with projects := mapSet s.projects project.id project,
                    currentProjectId := some project.id }
  (project, s.persist project.id)

/-- Method `MemoryStore.getCurrentProject`. -/
def MemoryStore.getCurrentProject (s : MemoryStore) : Option ProjectContext :=
  match s.currentProjectId with
  | none => none
  | some id => mapFind s.projects id

/-- Method `MemoryStore.getProject`. -/
def MemoryStore.getProject (s : MemoryStore) (projectId : String) : Option ProjectContext :=
  mapFind s.projects projectId

/-- Method `MemoryStore.updateProjectStatus` (silent no-op when the project id is
unknown). -/
def MemoryStore.updateProjectStatus (s : MemoryStore) (projectId : String)
    (status : ProjectStatus) (now : Nat) : MemoryStore :=
  match mapFind s.projects projectId with
  | none => s
  | some project =>
    let project := { project with status := status, updatedAt := now }
    MemoryStore.persist { s with projects := mapSet s.projects projectId project } projectId

/-- Method `MemoryStore.updatePhase`: create a pending record first when the phase
is missing, then spread-merge the partial data. -/
def MemoryStore.updatePhase (s : MemoryStore) (projectId phaseName : String)
    (phaseData : PartialPhaseData) (now : Nat) : MemoryStore :=
  match mapFind s.projects projectId with
  | none => s
  | some project =>
    let existing := (mapFind project.phases phaseName).getD
      { name := phaseName, status := PhaseStatus.pending, notes := some [] }
    let project := { project with
      phases := mapSet project.phases phaseName (mergePhaseData existing phaseData),
      updatedAt := now }
    MemoryStore.persist { s with projects := mapSet s.projects projectId project } projectId

/-- Method `MemoryStore.storeArtifact`. -/
def MemoryStore.storeArtifact (s : MemoryStore) (projectId artifactKey : String)
    (artifactData : String) (now : Nat) : MemoryStore :=
  match mapFind s.projects projectId with
  | none => s
  | some project =>
    let project := { project with
      artifacts := mapSet project.artifacts artifactKey artifactData, updatedAt := now }
    MemoryStore.persist { s with projects := mapSet s.projects projectId project } projectId

/-- Method `MemoryStore.addConversation`. -/
def MemoryStore.addConversation (s : MemoryStore) (projectId role message : String)
    (metadata : Option (List (String × String))) (now : Nat) : MemoryStore :=
  match mapFind s.projects projectId with
  | none => s
  | some project =>
    let project := { project with
      conversationHistory := project.conversationHistory ++
        [{ timestamp := now, role := role, message := message, metadata := metadata }],
      updatedAt := now }
    MemoryStore.persist { s with projects := mapSet s.projects projectId project } projectId

/-- Method `MemoryStore.updateMetadata`. -/
def MemoryStore.updateMetadata (s : MemoryStore) (projectId key value : String)
    (now : Nat) : MemoryStore :=
  match mapFind s.projects projectId with
  | none => s
  | some project =>
    let project := { project with
      metadata := mapSet project.metadata key value, updatedAt := now }
    MemoryStore.persist { s with projects := mapSet s.projects projectId project } projectId

/-- Method `MemoryStore.deleteProject`: removes the in-memory record, clears the
current pointer when it referred to this project, and deletes the durable
document. -/
def MemoryStore.deleteProject (s : MemoryStore) (projectId : String) : MemoryStore :=
  let s := { s with projects := mapErase s.projects projectId }
  let s := if s.currentProjectId = some projectId
    then { s with currentProjectId := none } else s
  { s with disk := mapErase s.disk projectId }

/-! ### Agent registry (src/core/agentManager.ts)

Roles are the string values of the `AgentRole` enum.  The `BaseAgent`
handle's `execute` call is external; its success or failure is an oracle
argument of `executeAgent`. -/

namespace AgentRole

def LEAD : String := "lead"
def REQUIREMENTS : String := "requirements"
def ARCHITECT : String := "architect"
def BACKEND : String := "backend"
def FRONTEND : String := "frontend"
def MOBILE : String := "mobile"
def GAME : String := "game"
def TESTER : String := "tester"
def DEVOPS : String := "devops"
def DOCS : String := "docs"
def SUMMARIZER : String := "summarizer"

end AgentRole

/-- The `AgentInstance.status` values. -/
inductive AgentStatus where
  | idle
  | working
  | completed
  | failed
deriving DecidableEq, Repr

/-- Record `AgentConfig`. -/
structure AgentConfig where
  role : String
  capabilities : List String
  priority : Nat
  systemPrompt : Option String := none
deriving DecidableEq, Repr

/-- Record `AgentInstance` metadata (the `agent : BaseAgent` handle is opaque and
is not part of the state the claims observe). -/
structure AgentInstance where
  id : String
  role : String
  config : AgentConfig
  status : AgentStatus
  createdAt : Nat
deriving DecidableEq, Repr

/-- The `AgentManager` state.  In the source, `agentsByRole` holds the very
same instance objects by reference; the aliasing is modelled by storing
ids that resolve through `agents`. -/
structure AgentManager where
  agents : List (String × AgentInstance) := []
  agentsByRole : List (String × List String) := []
deriving DecidableEq, Repr

/-- Method `AgentManager.createAgent` (the generated `uuidv4()` id is the
`agentId` argument); also emits an `agent.created` event, returned for the
bus. -/
def AgentManager.createAgent (m : AgentManager) (agentId role : String)
    (config : AgentConfig) (now : Nat) : AgentManager × List String :=
  let inst : AgentInstance :=
    { id := agentId, role := role, config := config,
      status := AgentStatus.idle, createdAt := now }
  let roleIds := (mapFind m.agentsByRole role).getD []
  let m := { m with
    agents := mapSet m.agents agentId inst,
    agentsByRole := mapSet m.agentsByRole role (roleIds ++ [agentId]) }
  (m, [EventType.AGENT_CREATED])

/-- Method `AgentManager.executeAgent`: the worker's `execute` outcome is the
`ok` oracle.  On an unknown id the call throws and the registry state is
unchanged; otherwise the instance's status ends `completed` (worker
returned) or `failed` (worker threw, error re-thrown after the state
update).  The intermediate `working` status and the emitted lifecycle
events are reflected in the returned event list. -/
def AgentManager.executeAgent (m : AgentManager) (agentId : String) (ok : Bool) :
    AgentManager × List String :=
  match mapFind m.agents agentId with
  | none => (m, [])
  | some inst =>
    if ok then
      ({ m with agents := mapSet m.agents agentId { inst with status := AgentStatus.completed } },
       [EventType.AGENT_STARTED, EventType.AGENT_COMPLETED])
    else
      ({ m with agents := mapSet m.agents agentId { inst with status := AgentStatus.failed } },
       [EventType.AGENT_STARTED, EventType.AGENT_FAILED])

/-- Remove the first occurrence of an id (`findIndex` + `splice`; no-op at
index `-1`). -/
def eraseFirstId : List String → String → List String
  | [], _ => []
  | x :: t, y => if x = y then t else x :: eraseFirstId t y

/-- Method `AgentManager.removeAgent`. -/
def AgentManager.removeAgent (m : AgentManager) (agentId : String) : AgentManager :=
  match mapFind m.agents agentId with
  | none => m
  | some inst =>
    let m := match mapFind m.agentsByRole inst.role with
      | none => m
      | some roleIds =>
        { m with agentsByRole := mapSet m.agentsByRole inst.role (eraseFirstId roleIds agentId) }
    { m with agents := mapErase m.agents agentId }

/-- Method `AgentManager.clearAgents`: both maps are cleared wholesale. -/
def AgentManager.clearAgents (_ : AgentManager) : AgentManager :=
  { agents := [], agentsByRole := [] }

/-- Method `AgentManager.getActiveAgents`: instances with status idle or
working. -/
def AgentManager.getActiveAgents (m : AgentManager) : List AgentInstance :=
  (m.agents.map Prod.snd).filter
    (fun inst => inst.status == AgentStatus.idle || inst.status == AgentStatus.working)

/-- The record returned by `AgentManager.getStatistics`; the two
`Record<string, number>` tallies are modelled as total count functions
(an absent key reads as count 0). -/
structure AgentStatistics where
  total : Nat
  byRole : String → Nat
  byStatus : AgentStatus → Nat

/-- Method `AgentManager.getStatistics`. -/
def AgentManager.getStatistics (m : AgentManager) : AgentStatistics :=
  { total := m.agents.length
    byRole := fun role => (m.agents.map Prod.snd).countP (fun inst => inst.role == role)
    byStatus := fun status => (m.agents.map Prod.snd).countP (fun inst => inst.status == status) }

/-- One call in a sequence against the registry (the oracle data a call
needs is carried in the constructor). -/
inductive AgentOp where
  | create (agentId role : String) (config : AgentConfig) (now : Nat)
  | execute (agentId : String) (ok : Bool)
  | remove (agentId : String)
deriving Repr

/-- Apply one registry call. -/
def applyAgentOp (m : AgentManager) (op : AgentOp) : AgentManager :=
  match op with
  | AgentOp.create agentId role config now => (m.createAgent agentId role config now).1
  | AgentOp.execute agentId ok => (m.executeAgent agentId ok).1
  | AgentOp.remove agentId => m.removeAgent agentId

/-- Apply a sequence of registry calls starting from the empty registry. -/
def applyAgentOps (ops : List AgentOp) : AgentManager :=
  ops.foldl applyAgentOp {}

/-! ### Workflow engine (src/core/autoFlow.ts) -/

/-- Record `WorkflowPhase` (a Phase Spec). -/
structure WorkflowPhase where
  name : String
  agentRoles : List String
  startEvent : String
  completeEvent : String
  nextPhase : Option String := none
  isParallel : Option Bool := none
deriving DecidableEq, Repr, Inhabited

/-- The default SDLC workflow built by `initializeDefaultWorkflow`. -/
def defaultWorkflow : List WorkflowPhase :=
  [ { name := "requirements"
      agentRoles := [AgentRole.REQUIREMENTS]
      startEvent := EventType.PHASE_REQUIREMENTS_START
      completeEvent := EventType.PHASE_REQUIREMENTS_COMPLETE
      nextPhase := some "architecture" },
    { name := "architecture"
      agentRoles := [AgentRole.ARCHITECT]
      startEvent := EventType.PHASE_ARCHITECTURE_START
      completeEvent := EventType.PHASE_ARCHITECTURE_COMPLETE
      nextPhase := some "development" },
    { name := "development"
      agentRoles := [AgentRole.BACKEND, AgentRole.FRONTEND, AgentRole.MOBILE, AgentRole.GAME]
      startEvent := EventType.PHASE_DEVELOPMENT_START
      completeEvent := EventType.PHASE_DEVELOPMENT_COMPLETE
      nextPhase := some "testing"
      isParallel := some true },
    { name := "testing"
      agentRoles := [AgentRole.TESTER]
      startEvent := EventType.PHASE_TESTING_START
      completeEvent := EventType.PHASE_TESTING_COMPLETE
      nextPhase := some "devops" },
    { name := "devops"
      agentRoles := [AgentRole.DEVOPS]
      startEvent := EventType.PHASE_DEVOPS_START
      completeEvent := EventType.PHASE_DEVOPS_COMPLETE
      nextPhase := some "documentation" },
    { name := "documentation"
      agentRoles := [AgentRole.DOCS]
      startEvent := EventType.PHASE_DOCUMENTATION_START
      completeEvent := EventType.PHASE_DOCUMENTATION_COMPLETE } ]

/-- The `AutoFlow` engine state. -/
structure AutoFlow where
  workflows : List (String × List WorkflowPhase) := [("default", defaultWorkflow)]
  currentPhase : Option String := none
  isRunning : Bool := false
deriving DecidableEq, Repr

/-- Method `AutoFlow.registerWorkflow`: only sets the named definition in the
`workflows` map; no listeners are wired. -/
def AutoFlow.registerWorkflow (flow : AutoFlow) (name : String)
    (phases : List WorkflowPhase) : AutoFlow :=
  { flow with workflows := mapSet flow.workflows name phases }

/-- The `statusMap` lookup with its `|| ProjectStatus.DEVELOPMENT`
fallback, from `proceedToNextPhase`. -/
def statusMapLookup (phaseName : String) : ProjectStatus :=
  if phaseName = "requirements" then ProjectStatus.requirements
  else if phaseName = "architecture" then ProjectStatus.architecture
  else if phaseName = "development" then ProjectStatus.development
  else if phaseName = "testing" then ProjectStatus.testing
  else if phaseName = "devops" then ProjectStatus.devops
  else if phaseName = "documentation" then ProjectStatus.documentation
  else ProjectStatus.development

/-- The fixed listener table wired by `AutoFlow.setupEventListeners`: one
hardcoded `eventBus.on` registration per named default phase, keyed by the
six enumerated complete-event identifiers.  Any other event identifier has
no engine listener. -/
def listenerPhaseOf (event : String) : Option String :=
  if event = EventType.PHASE_REQUIREMENTS_COMPLETE then some "requirements"
  else if event = EventType.PHASE_ARCHITECTURE_COMPLETE then some "architecture"
  else if event = EventType.PHASE_DEVELOPMENT_COMPLETE then some "development"
  else if event = EventType.PHASE_TESTING_COMPLETE then some "testing"
  else if event = EventType.PHASE_DEVOPS_COMPLETE then some "devops"
  else if event = EventType.PHASE_DOCUMENTATION_COMPLETE then some "documentation"
  else none

/-- Method `AutoFlow.proceedToNextPhase`.  Note the source always consults the
`'default'` workflow here, never the definition that was started.  Returns
the new engine state, the new store, and the list of emitted start-event
identifiers. -/
def proceedToNextPhase (flow : AutoFlow) (store : MemoryStore)
    (currentPhaseName : String) (now : Nat) : AutoFlow × MemoryStore × List String :=
  match mapFind flow.workflows "default" with
  | none => (flow, store, [])
  | some workflow =>
    match workflow.find? (fun phase => phase.name = currentPhaseName) with
    | none => (flow, store, [])
    | some currentPhase =>
      match currentPhase.nextPhase with
      | none =>
        let flow := { flow with isRunning := false }
        let store := match store.getCurrentProject with
          | some project => store.updateProjectStatus project.id ProjectStatus.completed now
          | none => store
        (flow, store, [])
      | some nextPhaseName =>
        match workflow.find? (fun phase => phase.name = nextPhaseName) with
        | none => (flow, store, [])
        | some nextPhase =>
          let flow := { flow with currentPhase := some nextPhaseName }
          let store := match store.getCurrentProject with
            | some project =>
              let store := store.updateProjectStatus project.id
                (statusMapLookup nextPhaseName) now
              store.updatePhase project.id nextPhaseName
                { name := some nextPhaseName
                  status := some PhaseStatus.in_progress
                  startedAt := some (some now) } now
            | none => store
          (flow, store, [nextPhase.startEvent])

/-! ### The composed core (singleton bus, store, registry, engine) -/

/-- The orchestration core's composed state: the module-level singletons
`eventBus`, `memoryStore`, `agentManager` and `autoFlow`. -/
structure CoreSystem where
  bus : EventBus := {}
  store : MemoryStore := {}
  agentMgr : AgentManager := {}
  flow : AutoFlow := {}
deriving DecidableEq, Repr

/-- The freshly constructed core: default workflow registered, listeners
wired, empty store and registry. -/
def CoreSystem.init : CoreSystem := {}

/-- An externally published event as seen by the engine's phase-complete
handlers: the identifier plus the `result` / `artifacts` payload keys
(each possibly `undefined`), and the `Date.now()` clock at dispatch. -/
structure PublishInput where
  event : String
  result : Option String := none
  artifacts : Option (List (String × String)) := none
  now : Nat := 0
deriving DecidableEq, Repr

/-- Dispatch of `eventBus.emit` for one external event: append to history, then invoke
the subscribed listeners.  The wired listeners are the `AgentManager` ones
(`system.error` logs only; `project.realign` clears the registry) and the
`AutoFlow` phase-complete handlers (mark the phase completed on the
current project, then `proceedToNextPhase`).  The listener families read
and write disjoint state, so their effects are composed from the
pre-state.  Start-events emitted by `proceedToNextPhase` are appended to
the history; no modelled component subscribes to a start-event, so they
trigger no further handler.  Returns the new state and the emitted
start-event identifiers. -/
def CoreSystem.publish (s : CoreSystem) (inp : PublishInput) : CoreSystem × List String :=
  let bus := s.bus.addToHistory { event := inp.event, timestamp := inp.now }
  let agentMgr := if inp.event = EventType.PROJECT_REALIGN
    then s.agentMgr.clearAgents else s.agentMgr
  match listenerPhaseOf inp.event with
  | none => ({ s with bus := bus, agentMgr := agentMgr }, [])
  | some phaseName =>
    let store := match s.store.getCurrentProject with
      | some project => s.store.updatePhase project.id phaseName
          { name := some phaseName
            status := some PhaseStatus.completed
            completedAt := some (some inp.now)
            result := some inp.result
            artifacts := some inp.artifacts } inp.now
      | none => s.store
    let (flow, store, emitted) := proceedToNextPhase s.flow store phaseName inp.now
    let bus := emitted.foldl
      (fun b e => EventBus.addToHistory b { event := e, timestamp := inp.now }) bus
    ({ s with bus := bus, agentMgr := agentMgr, store := store, flow := flow }, emitted)

/-- Publish a sequence of external events. -/
def CoreSystem.publishAll (s : CoreSystem) (inps : List PublishInput) : CoreSystem :=
  inps.foldl (fun s inp => (s.publish inp).1) s

/-- Method `AutoFlow.startWorkflow` acting on the composed state.  Mirrors the
source's order: look up the definition (throw when unknown), set
`isRunning`, require a current project (throw otherwise), take the first
Phase Spec (a JS `TypeError` on an empty definition, modelled as an
error), set `currentPhase`, hardcode the project status to
`ProjectStatus.REQUIREMENTS`, mark the first phase in progress, and emit
its start-event. -/
def CoreSystem.startWorkflow (s : CoreSystem) (workflowName : String) (now : Nat) :
    Except String (CoreSystem × List String) :=
  match mapFind s.flow.workflows workflowName with
  | none => Except.error ("Workflow " ++ workflowName ++ " not found")
  | some workflow =>
    let flow := { s.flow with isRunning := true }
    match s.store.getCurrentProject with
    | none => Except.error "No active project found"
    | some project =>
      match workflow with
      | [] => Except.error "TypeError: cannot read firstPhase of empty workflow"
      | firstPhase :: _ =>
        let flow := { flow with currentPhase := some firstPhase.name }
        let store := s.store.updateProjectStatus project.id ProjectStatus.requirements now
        let store := store.updatePhase project.id firstPhase.name
          { name := some firstPhase.name
            status := some PhaseStatus.in_progress
            startedAt := some (some now) } now
        let bus := s.bus.addToHistory { event := firstPhase.startEvent, timestamp := now }
        Except.ok ({ s with bus := bus, store := store, flow := flow }, [firstPhase.startEvent])

/-- Wrapper running `startWorkflow` as a total step on the composed state (on a thrown
error the modelled state is returned unchanged with no emissions; the
concrete runs below always take the success path). -/
def CoreSystem.startWorkflowRun (s : CoreSystem) (workflowName : String) (now : Nat) :
    CoreSystem × List String :=
  match s.startWorkflow workflowName now with
  | Except.ok r => r
  | Except.error _ => (s, [])

/-- Call of `memoryStore.createProject` on the composed state. -/
def CoreSystem.createProject (s : CoreSystem) (newId purposeId purposeName : String)
    (techStack : TechStack) (now : Nat) : CoreSystem :=
  { s with store := (s.store.createProject newId purposeId purposeName techStack now).2 }

/-- Call of `autoFlow.registerWorkflow` on the composed state. -/
def CoreSystem.registerWorkflow (s : CoreSystem) (name : String)
    (phases : List WorkflowPhase) : CoreSystem :=
  { s with flow := s.flow.registerWorkflow name phases }

/-! ### `EventBus.waitFor` (src/core/eventBus.ts, lines 195-214)

One `waitFor(event, timeout?)` call is modelled as a small state machine.
`timerActive` is a pending `setTimeout`; `handlerActive` is the
`once`-subscribed temporary handler; `outcome` is the promise's
settlement.  The environment steps are the timer callback firing and a
publish on the awaited channel (publishes on other channels do not reach
the handler and are omitted).  Payloads are tagged by `Nat`. -/

/-- The settlement state of the promise returned by `waitFor`. -/
inductive WaitOutcome where
  | pending
  | rejected (message : String)
  | resolved (payload : Nat)
deriving DecidableEq, Repr

/-- The observable state of one `waitFor` call. -/
structure WaitForState where
  timerActive : Bool
  handlerActive : Bool
  outcome : WaitOutcome
deriving DecidableEq, Repr

/-- The rejection built by the timer callback. -/
def waitForTimeoutError (event : String) : WaitOutcome :=
  WaitOutcome.rejected ("Timeout waiting for event: " ++ event)

/-- JavaScript truthiness of the optional `timeout` number: `undefined`
and `0` are falsy, so `const timer = timeout ? setTimeout(...) : null`
registers no timer for them. -/
def jsTruthyTimeout : Option Nat → Bool
  | none => false
  | some t => t != 0

/-- State right after `waitFor(event, timeout)` sets up: the one-shot
handler is subscribed, and a timer is pending exactly when `timeout` is
truthy. -/
def waitForInit (timeout : Option Nat) : WaitForState :=
  { timerActive := jsTruthyTimeout timeout, handlerActive := true,
    outcome := WaitOutcome.pending }

/-- Environment steps for one `waitFor` call. -/
inductive WaitEvent where
  | timerFire
  | publish (payload : Nat)
deriving DecidableEq, Repr

/-- One step.  The timer callback runs `this.off(event, handler)` then
rejects; the handler (removed by `once` semantics after its single
invocation) runs `clearTimeout(timer)` then resolves.  Settling an
already-settled promise is a no-op. -/
def waitStep (event : String) (s : WaitForState) (e : WaitEvent) : WaitForState :=
  match e with
  | WaitEvent.timerFire =>
    if s.timerActive then
      { timerActive := false, handlerActive := false,
        outcome := if s.outcome == WaitOutcome.pending then waitForTimeoutError event
          else s.outcome }
    else s
  | WaitEvent.publish payload =>
    if s.handlerActive then
      { timerActive := false, handlerActive := false,
        outcome := if s.outcome == WaitOutcome.pending then WaitOutcome.resolved payload
          else s.outcome }
    else s

/-- A full `waitFor` call under an environment trace. -/
def waitRun (event : String) (timeout : Option Nat) (es : List WaitEvent) : WaitForState :=
  es.foldl (waitStep event) (waitForInit timeout)

/-! ### Counting in-progress phase records -/

/-- The number of phase records of a phase map with status
`in_progress`. -/
def inProgCount (l : List (String × PhaseData)) : Nat :=
  l.countP (fun kv => kv.2.status == PhaseStatus.in_progress)

/-- A published complete-event is orderly when it names (via the fixed
listener table) a phase whose record on the current project is currently
in progress — the way complete-events arise in an actual run, where the
collaborator for the started phase publishes its completion. -/
def orderlyHead (s : CoreSystem) (inp : PublishInput) : Bool :=
  match listenerPhaseOf inp.event with
  | none => false
  | some phaseName =>
    match s.store.getCurrentProject with
    | none => false
    | some p =>
      match mapFind p.phases phaseName with
      | some d => d.status == PhaseStatus.in_progress
      | none => false

/-- Every event of the sequence is orderly in the state it is published
in. -/
def orderlyRun (s : CoreSystem) : List PublishInput → Bool
  | [] => true
  | inp :: rest => orderlyHead s inp && orderlyRun (s.publish inp).1 rest

/-- Invariant on the composed state: the current project (when one
exists) is keyed in the store by its own id and has at most one phase
record in progress. -/
def InvCurrentProject (s : CoreSystem) : Prop :=
  ∀ p, s.store.getCurrentProject = some p →
    s.store.currentProjectId = some p.id ∧ inProgCount p.phases ≤ 1

/-! ### Shorthands for the store's per-operation project updates -/

/-- The project value produced by `updatePhase` on an existing project. -/
def phasePatch (p : ProjectContext) (phaseName : String) (pd : PartialPhaseData)
    (now : Nat) : ProjectContext :=
  { p with
    phases := mapSet p.phases phaseName
      (mergePhaseData ((mapFind p.phases phaseName).getD
        { name := phaseName, status := PhaseStatus.pending, notes := some [] }) pd)
    updatedAt := now }

/-- The project value produced by `updateProjectStatus` on an existing
project. -/
def statusPatch (p : ProjectContext) (st : ProjectStatus) (now : Nat) : ProjectContext :=
  { p with status := st, updatedAt := now }

/-- The in-memory record and the durable document for this project agree
(and exist). -/
def MirrorAt (s : MemoryStore) (projectId : String) : Prop :=
  (mapFind s.projects projectId).isSome ∧
    mapFind s.disk projectId = mapFind s.projects projectId

/-! ### Concrete run states used by the counterexamples and witnesses -/

/-- A custom phase outside the default workflow's vocabulary. -/
def c1CustomPhase : WorkflowPhase :=
  { name := "design"
    agentRoles := [AgentRole.ARCHITECT]
    startEvent := "phase.design.start"
    completeEvent := "phase.design.complete" }

/-- A project created, a one-phase custom workflow registered and made
active by starting it. -/
def c1Started : CoreSystem :=
  (((CoreSystem.init.createProject "p1" "cli-tool" "CLI Tool" {} 10).registerWorkflow
      "custom" [c1CustomPhase]).startWorkflowRun "custom" 11).1

/-- Publication of the custom phase's declared complete-event. -/
def c1After : CoreSystem × List String :=
  c1Started.publish { event := "phase.design.complete", result := some "done", now := 12 }

/-- A registered workflow whose first phase is `architecture`. -/
def c2ArchFirst : List WorkflowPhase :=
  [ { name := "architecture"
      agentRoles := [AgentRole.ARCHITECT]
      startEvent := EventType.PHASE_ARCHITECTURE_START
      completeEvent := EventType.PHASE_ARCHITECTURE_COMPLETE } ]

/-- A project created and the `architecture`-first workflow started. -/
def c2Run : CoreSystem :=
  (((CoreSystem.init.createProject "p2" "web-app" "Web App" {} 10).registerWorkflow
      "archFirst" c2ArchFirst).startWorkflowRun "archFirst" 11).1

/-- A project created and the default workflow started. -/
def c3Started : CoreSystem :=
  ((CoreSystem.init.createProject "p3" "web-app" "Web App" {} 10).startWorkflowRun
    "default" 11).1

/-- The state after publishing `phase.testing.complete` out of order
(while `requirements` is the phase in progress). -/
def c3Bad : CoreSystem :=
  (c3Started.publish { event := EventType.PHASE_TESTING_COMPLETE, now := 12 }).1

/-- The orderly requirements complete-event used by the C3 witness. -/
def c3WitnessInput : PublishInput :=
  { event := EventType.PHASE_REQUIREMENTS_COMPLETE, now := 12 }

/-- The current project of `c3Started` after the orderly requirements
completion: requirements completed, architecture in progress. -/
def c3WitnessAfter : ProjectContext :=
  { id := "p3"
    purposeId := "web-app"
    purposeName := "Web App"
    techStack := {}
    status := ProjectStatus.architecture
    createdAt := 10
    updatedAt := 12
    phases := [
      ("requirements",
        { name := "requirements", status := PhaseStatus.completed, startedAt := some 11,
          completedAt := some 12, result := none, artifacts := none, notes := some [] }),
      ("architecture",
        { name := "architecture", status := PhaseStatus.in_progress, startedAt := some 12,
          completedAt := none, result := none, artifacts := none, notes := some [] }) ]
    artifacts := []
    conversationHistory := []
    metadata := [] }

/-- A project created and the default workflow started (C5 scenario). -/
def c5Started : CoreSystem :=
  ((CoreSystem.init.createProject "p5" "web-app" "Web App" {} 10).startWorkflowRun
    "default" 11).1

/-- The state after the final phase's complete-event (documentation has no
next phase). -/
def c5Done : CoreSystem :=
  (c5Started.publish { event := EventType.PHASE_DOCUMENTATION_COMPLETE, now := 12 }).1

/-- A store holding one freshly created project (C5 witness scenario). -/
def c5WitnessSys : CoreSystem :=
  CoreSystem.init.createProject "p9" "game" "Game" {} 3

/-- The published documentation complete-event used by the C5 witness. -/
def c5WitnessInput : PublishInput :=
  { event := EventType.PHASE_DOCUMENTATION_COMPLETE, now := 4 }

/-- The project context held by `c5WitnessSys`. -/
def c5WitnessProject : ProjectContext :=
  { id := "p9"
    purposeId := "game"
    purposeName := "Game"
    techStack := {}
    status := ProjectStatus.initializing
    createdAt := 3
    updatedAt := 3
    phases := []
    artifacts := []
    conversationHistory := []
    metadata := [] }

/-! ### Supporting lemmas -/

theorem mapFind_mapSet_self {β : Type} (l : List (String × β)) (k : String) (v : β) :
    mapFind (mapSet l k v) k = some v := by
  induction l with
  | nil => simp [mapFind, mapSet]
  | cons h t ih =>
    obtain ⟨k', v'⟩ := h
    by_cases hk : k' = k
    · simp [mapFind, mapSet, hk]
    · simp [mapFind, mapSet, hk, ih]

theorem mapFind_mapSet_ne {β : Type} (l : List (String × β)) (k k' : String) (v : β)
    (h : k ≠ k') : mapFind (mapSet l k v) k' = mapFind l k' := by
  induction l with
  | nil => simp [mapFind, mapSet, h]
  | cons hd t ih =>
    obtain ⟨k₀, v₀⟩ := hd
    by_cases hk : k₀ = k
    · subst hk
      simp [mapFind, mapSet, h]
    · simp only [mapSet, if_neg hk]
      by_cases hk' : k₀ = k'
      · simp [mapFind, hk']
      · simp [mapFind, hk', ih]

theorem takeLast_of_le {α : Type} (l : List α) (n : Nat) (h : l.length ≤ n) :
    takeLast l n = l := by
  unfold takeLast
  rw [Nat.sub_eq_zero_of_le h, List.drop_zero]

theorem takeLast_cons_of_le {α : Type} (x : α) (l : List α) (n : Nat) (h : n ≤ l.length) :
    takeLast (x :: l) n = takeLast l n := by
  unfold takeLast
  have hlen : (x :: l).length - n = (l.length - n) + 1 := by
    simp only [List.length_cons]
    omega
  rw [hlen, List.drop_succ_cons]

theorem publishAll_eventHistory (m : Nat) (h es : List HistoryEntry)
    (hh : h.length ≤ m) :
    (EventBus.publishAll { maxHistorySize := m, eventHistory := h } es).eventHistory
      = takeLast (h ++ es) m := by
  induction es generalizing h with
  | nil =>
    simp only [EventBus.publishAll, List.foldl_nil, List.append_nil]
    exact (takeLast_of_le h m hh).symm
  | cons e t ih =>
    simp only [EventBus.publishAll, List.foldl_cons]
    by_cases hlen : (h ++ [e]).length > m
    · have hm : h.length = m := by
        simp only [List.length_append, List.length_singleton] at hlen
        omega
      have hne : h ++ [e] ≠ [] := by simp
      obtain ⟨x, rest, hxr⟩ := List.exists_cons_of_ne_nil hne
      have hdrop : (h ++ [e]).drop 1 = rest := by rw [hxr]; rfl
      have hrest_len : rest.length ≤ m := by
        have : (h ++ [e]).length = m + 1 := by
          simp only [List.length_append, List.length_singleton]; omega
        rw [hxr] at this
        simp only [List.length_cons] at this
        omega
      have hstep : EventBus.addToHistory { maxHistorySize := m, eventHistory := h } e
          = { maxHistorySize := m, eventHistory := rest } := by
        simp only [EventBus.addToHistory, if_pos hlen, hdrop]
      rw [hstep]
      have := ih rest hrest_len
      simp only [EventBus.publishAll] at this
      rw [this]
      have hx : (x :: (rest ++ t)).length = (h ++ e :: t).length := by
        have : x :: rest = h ++ [e] := hxr.symm
        simp only [List.length_cons, List.length_append]
        have hl := congrArg List.length this
        simp only [List.length_cons, List.length_append, List.length_singleton] at hl
        omega
      have hrt : m ≤ (rest ++ t).length := by
        have : rest.length = m := by
          have hl := congrArg List.length hxr
          simp only [List.length_append, List.length_singleton, List.length_cons] at hl
          omega
        simp only [List.length_append]
        omega
    -- (x :: rest) ++ t = (h ++ [e]) ++ t = h ++ e :: t
      have hlist : x :: (rest ++ t) = h ++ e :: t := by
        have : (x :: rest) ++ t = (h ++ [e]) ++ t := by rw [hxr]
        simpa [List.append_assoc] using this
      calc takeLast (rest ++ t) m
          = takeLast (x :: (rest ++ t)) m := (takeLast_cons_of_le x (rest ++ t) m hrt).symm
        _ = takeLast (h ++ e :: t) m := by rw [hlist]
    · have hstep : EventBus.addToHistory { maxHistorySize := m, eventHistory := h } e
          = { maxHistorySize := m, eventHistory := h ++ [e] } := by
        simp only [EventBus.addToHistory, if_neg hlen]
      rw [hstep]
      have hle : (h ++ [e]).length ≤ m := Nat.le_of_not_lt hlen
      have := ih (h ++ [e]) hle
      simp only [EventBus.publishAll] at this
      rw [this, List.append_assoc]
      rfl

theorem waitStep_settled (event : String) (s : WaitForState) (e : WaitEvent)
    (ht : s.timerActive = false) (hh : s.handlerActive = false) :
    waitStep event s e = s := by
  cases e <;> simp [waitStep, ht, hh]

theorem waitRun_settled (event : String) (s : WaitForState) (es : List WaitEvent)
    (ht : s.timerActive = false) (hh : s.handlerActive = false) :
    es.foldl (waitStep event) s = s := by
  induction es with
  | nil => rfl
  | cons e t ih => rw [List.foldl_cons, waitStep_settled event s e ht hh, ih]

theorem inProgCount_pos_of_find (l : List (String × PhaseData)) (k : String) (d : PhaseData)
    (hf : mapFind l k = some d) (hd : d.status = PhaseStatus.in_progress) :
    1 ≤ inProgCount l := by
  induction l with
  | nil => simp [mapFind] at hf
  | cons hd' t ih =>
    obtain ⟨k₀, v₀⟩ := hd'
    simp only [mapFind] at hf
    by_cases hk : k₀ = k
    · rw [if_pos hk] at hf
      injection hf with hv
      subst hv
      simp [inProgCount, List.countP_cons, hd]
    · rw [if_neg hk] at hf
      have := ih hf
      simp only [inProgCount, List.countP_cons] at this ⊢
      omega

theorem inProgCount_mapSet_away (l : List (String × PhaseData)) (k : String)
    (d v : PhaseData) (hf : mapFind l k = some d) (hd : d.status = PhaseStatus.in_progress)
    (hc : inProgCount l ≤ 1) (hv : v.status ≠ PhaseStatus.in_progress) :
    inProgCount (mapSet l k v) = 0 := by
  induction l with
  | nil => simp [mapFind] at hf
  | cons hd' t ih =>
    obtain ⟨k₀, v₀⟩ := hd'
    simp only [mapFind] at hf
    simp only [inProgCount, List.countP_cons] at hc ⊢
    by_cases hk : k₀ = k
    · rw [if_pos hk] at hf
      injection hf with hv₀
      subst hv₀
      simp only [mapSet, if_pos hk, List.countP_cons]
      have hone : (if v₀.status == PhaseStatus.in_progress then 1 else 0) = 1 := by
        simp [hd]
      rw [hone] at hc
      have ht : List.countP (fun kv => kv.2.status == PhaseStatus.in_progress) t = 0 := by
        omega
      have hz : (if v.status == PhaseStatus.in_progress then 1 else 0) = 0 := by
        simp [hv]
      simp only [inProgCount] at ht ⊢
      omega
    · rw [if_neg hk] at hf
      have hpos := inProgCount_pos_of_find t k d hf hd
      simp only [inProgCount] at hpos
      have h₀ : (if v₀.status == PhaseStatus.in_progress then 1 else 0) = 0 := by
        by_cases hs : v₀.status == PhaseStatus.in_progress
        · simp only [hs, if_pos] at hc ⊢
          omega
        · simp [hs]
      have hct : List.countP (fun kv => kv.2.status == PhaseStatus.in_progress) t ≤ 1 := by
        omega
      have := ih hf (by simpa [inProgCount] using hct)
      simp only [mapSet, if_neg hk, List.countP_cons]
      simp only [inProgCount] at this
      omega

theorem inProgCount_mapSet_le_one (l : List (String × PhaseData)) (k : String)
    (v : PhaseData) (hc : inProgCount l = 0) :
    inProgCount (mapSet l k v) ≤ 1 := by
  induction l with
  | nil =>
    simp only [mapSet, inProgCount, List.countP_cons, List.countP_nil]
    split <;> omega
  | cons hd' t ih =>
    obtain ⟨k₀, v₀⟩ := hd'
    simp only [inProgCount, List.countP_cons] at hc
    have h₀ : (if v₀.status == PhaseStatus.in_progress then 1 else 0) = 0 := by omega
    have ht : List.countP (fun kv => kv.2.status == PhaseStatus.in_progress) t = 0 := by omega
    by_cases hk : k₀ = k
    · simp only [mapSet, if_pos hk, inProgCount, List.countP_cons, ht]
      split <;> omega
    · have := ih (by simpa [inProgCount] using ht)
      simp only [mapSet, if_neg hk, inProgCount, List.countP_cons] at this ⊢
      omega

theorem updateProjectStatus_eq (s : MemoryStore) (id : String) (st : ProjectStatus)
    (now : Nat) (p : ProjectContext) (hf : mapFind s.projects id = some p) :
    s.updateProjectStatus id st now
      = { s with projects := mapSet s.projects id (statusPatch p st now),
                 disk := mapSet s.disk id (statusPatch p st now) } := by
  simp only [MemoryStore.updateProjectStatus, hf, MemoryStore.persist,
    mapFind_mapSet_self, statusPatch]

theorem updatePhase_eq (s : MemoryStore) (id phaseName : String) (pd : PartialPhaseData)
    (now : Nat) (p : ProjectContext) (hf : mapFind s.projects id = some p) :
    s.updatePhase id phaseName pd now
      = { s with projects := mapSet s.projects id (phasePatch p phaseName pd now),
                 disk := mapSet s.disk id (phasePatch p phaseName pd now) } := by
  simp only [MemoryStore.updatePhase, hf, MemoryStore.persist,
    mapFind_mapSet_self, phasePatch]

theorem createProject_eq (s : MemoryStore) (newId purposeId purposeName : String)
    (ts : TechStack) (now : Nat) :
    s.createProject newId purposeId purposeName ts now
      = ({ id := newId, purposeId := purposeId, purposeName := purposeName,
           techStack := ts, status := ProjectStatus.initializing,
           createdAt := now, updatedAt := now, phases := [], artifacts := [],
           conversationHistory := [], metadata := [] },
         { projects := mapSet s.projects newId
             { id := newId, purposeId := purposeId, purposeName := purposeName,
               techStack := ts, status := ProjectStatus.initializing,
               createdAt := now, updatedAt := now, phases := [], artifacts := [],
               conversationHistory := [], metadata := [] },
           currentProjectId := some newId,
           disk := mapSet s.disk newId
             { id := newId, purposeId := purposeId, purposeName := purposeName,
               techStack := ts, status := ProjectStatus.initializing,
               createdAt := now, updatedAt := now, phases := [], artifacts := [],
               conversationHistory := [], metadata := [] } }) := by
  simp only [MemoryStore.createProject, MemoryStore.persist, mapFind_mapSet_self]

theorem getCurrentProject_eq (s : MemoryStore) (id : String) (hc : s.currentProjectId = some id) :
    s.getCurrentProject = mapFind s.projects id := by
  simp only [MemoryStore.getCurrentProject, hc]

theorem agents_byStatus_sum (l : List AgentInstance) :
    l.countP (fun i => i.status == AgentStatus.idle)
      + l.countP (fun i => i.status == AgentStatus.working)
      + l.countP (fun i => i.status == AgentStatus.completed)
      + l.countP (fun i => i.status == AgentStatus.failed)
      = l.length := by
  induction l with
  | nil => rfl
  | cons a t ih =>
    simp only [List.countP_cons, List.length_cons]
    cases ha : a.status <;> simp [ha] <;> omega

/-! ### Claim theorems -/

/-- Claim C4: the event bus history is a bounded ring buffer: for every
capacity value of the `maxHistorySize` field and every published sequence,
the retained entries are exactly the most recent `maxHistorySize` ones in
emission order (the oldest is evicted first); in particular with capacity
3, publishing 5 events retains exactly the last 3 in emission order. -/
theorem C4_history_ring_buffer :
    (∀ (m : Nat) (es : List HistoryEntry),
      (EventBus.publishAll { maxHistorySize := m } es).eventHistory = takeLast es m) ∧
    (EventBus.publishAll { maxHistorySize := 3 }
        [ { event := "user.message", timestamp := 1 },
          { event := "agent.created", timestamp := 2 },
          { event := "user.message", timestamp := 3 },
          { event := "lead.response", timestamp := 4 },
          { event := "agent.started", timestamp := 5 } ]).eventHistory
      = [ { event := "user.message", timestamp := 3 },
          { event := "lead.response", timestamp := 4 },
          { event := "agent.started", timestamp := 5 } ] := by
  constructor
  · intro m es
    have h := publishAll_eventHistory m [] es (by simp)
    simpa using h
  · decide

/-- Claim C8: for every sequence of `createAgent`, `executeAgent` and
`removeAgent` calls, `getStatistics` returns per-status counts whose sum
equals the total number of tracked agents. -/
theorem C8_statistics_sum (ops : List AgentOp) :
    ((applyAgentOps ops).getStatistics.byStatus AgentStatus.idle
      + (applyAgentOps ops).getStatistics.byStatus AgentStatus.working
      + (applyAgentOps ops).getStatistics.byStatus AgentStatus.completed
      + (applyAgentOps ops).getStatistics.byStatus AgentStatus.failed)
      = (applyAgentOps ops).getStatistics.total := by
  simp only [AgentManager.getStatistics]
  have h := agents_byStatus_sum ((applyAgentOps ops).agents.map Prod.snd)
  simpa using h

/-- Claim C9: publishing the `project.realign` signal clears all tracked
agent instances and the role index wholesale (`getActiveAgents` becomes
empty) while the project store — both the in-memory records and the
durable documents — is left entirely unchanged. -/
theorem C9_realign_clears_agents (s : CoreSystem) (now : Nat) :
    ((s.publish { event := EventType.PROJECT_REALIGN, now := now }).1.agentMgr.getActiveAgents
        = []) ∧
    (s.publish { event := EventType.PROJECT_REALIGN, now := now }).1.agentMgr.agents = [] ∧
    (s.publish { event := EventType.PROJECT_REALIGN, now := now }).1.agentMgr.agentsByRole = [] ∧
    (s.publish { event := EventType.PROJECT_REALIGN, now := now }).1.store = s.store := by
  have hl : listenerPhaseOf EventType.PROJECT_REALIGN = none := by decide
  simp [CoreSystem.publish, hl, AgentManager.clearAgents, AgentManager.getActiveAgents]

/-- Claim C10: every mutating store operation on a project id that is not
in the in-memory map is a silent no-op: the whole store — in-memory map,
current pointer and durable documents — is returned unchanged. -/
theorem C10_missing_id_noop (s : MemoryStore) (projectId : String) (st : ProjectStatus)
    (phaseName : String) (pd : PartialPhaseData) (key value role msg : String)
    (md : Option (List (String × String))) (metaKey metaValue : String) (now : Nat)
    (h : mapFind s.projects projectId = none) :
    s.updateProjectStatus projectId st now = s ∧
    s.updatePhase projectId phaseName pd now = s ∧
    s.storeArtifact projectId key value now = s ∧
    s.addConversation projectId role msg md now = s ∧
    s.updateMetadata projectId metaKey metaValue now = s := by
  refine ⟨?_, ?_, ?_, ?_, ?_⟩ <;>
    simp only [MemoryStore.updateProjectStatus, MemoryStore.updatePhase,
      MemoryStore.storeArtifact, MemoryStore.addConversation,
      MemoryStore.updateMetadata, h]

/-- Witness for C10 at the empty store and id `ghost`. -/
theorem C10_missing_id_noop_witness :
    mapFind (MemoryStore.projects {}) "ghost" = none ∧
    MemoryStore.updatePhase {} "ghost" "requirements" {} 7 = ({} : MemoryStore) := by
  refine ⟨by decide, ?_⟩
  exact (C10_missing_id_noop {} "ghost" ProjectStatus.completed "requirements" {} "k" "v"
    "user" "hello" none "mk" "mv" 7 (by decide)).2.1

/-- Counterexample to claim C6 as stated: the claim quantifies over every
timeout, but for `timeoutMs = 0` the falsy check `timeout ? setTimeout(...)
: null` registers no timer at all, so even when no event is ever published
within 0 ms the promise stays pending forever instead of rejecting with a
timeout failure (the elapsing of the timeout is the `timerFire` step,
which here finds no pending timer). -/
theorem C6_counterexample :
    waitRun "user.message" (some 0) [WaitEvent.timerFire]
      = { timerActive := false, handlerActive := true, outcome := WaitOutcome.pending } := by
  decide

/-- Claim C6 amended: for every channel and every positive timeout,
`waitFor` rejects with a timeout-kind failure when the timer fires before
any event arrives, resolves with the payload when an event arrives first,
and on either resolution path both the temporary one-shot handler and the
timer are gone — so any later publishes or timer callbacks (the trailing
trace `es`) leave the settled state untouched and never invoke the stale
handler. -/
theorem C6_waitFor_amended (event : String) (t : Nat) (ht : t ≠ 0)
    (es : List WaitEvent) (payload : Nat) :
    (waitRun event (some t) (WaitEvent.timerFire :: es)
      = { timerActive := false, handlerActive := false,
          outcome := waitForTimeoutError event }) ∧
    (waitRun event (some t) (WaitEvent.publish payload :: es)
      = { timerActive := false, handlerActive := false,
          outcome := WaitOutcome.resolved payload }) := by
  have htr : jsTruthyTimeout (some t) = true := by
    simp [jsTruthyTimeout, ht]
  constructor
  · rw [waitRun, List.foldl_cons]
    have hstep : waitStep event (waitForInit (some t)) WaitEvent.timerFire
        = { timerActive := false, handlerActive := false,
            outcome := waitForTimeoutError event } := by
      simp [waitStep, waitForInit, htr]
    rw [hstep]
    exact waitRun_settled event _ es rfl rfl
  · rw [waitRun, List.foldl_cons]
    have hstep : waitStep event (waitForInit (some t)) (WaitEvent.publish payload)
        = { timerActive := false, handlerActive := false,
            outcome := WaitOutcome.resolved payload } := by
      simp [waitStep, waitForInit, htr]
    rw [hstep]
    exact waitRun_settled event _ es rfl rfl

/-- Witness for the amended C6 at timeout 100 on `user.message`, with a
stale publish after each resolution path. -/
theorem C6_waitFor_amended_witness :
    (100 : Nat) ≠ 0 ∧
    ((waitRun "user.message" (some 100) [WaitEvent.timerFire, WaitEvent.publish 8]
      = { timerActive := false, handlerActive := false,
          outcome := waitForTimeoutError "user.message" }) ∧
    (waitRun "user.message" (some 100) [WaitEvent.publish 7, WaitEvent.publish 8]
      = { timerActive := false, handlerActive := false,
          outcome := WaitOutcome.resolved 7 })) :=
  ⟨by decide, C6_waitFor_amended "user.message" 100 (by decide) [WaitEvent.publish 8] 7⟩

theorem loadProject_fst (s : MemoryStore) (projectId : String) :
    (s.loadProject projectId).1 = mapFind s.disk projectId := by
  unfold MemoryStore.loadProject
  cases mapFind s.disk projectId <;> rfl

theorem mirrorAt_createProject (s : MemoryStore) (newId purposeId purposeName : String)
    (ts : TechStack) (now : Nat) :
    MirrorAt (s.createProject newId purposeId purposeName ts now).2 newId := by
  rw [createProject_eq]
  exact ⟨by simp [mapFind_mapSet_self], by simp [mapFind_mapSet_self]⟩

theorem mirrorAt_updateProjectStatus (s : MemoryStore) (id : String) (st : ProjectStatus)
    (now : Nat) (h : (mapFind s.projects id).isSome) :
    MirrorAt (s.updateProjectStatus id st now) id := by
  obtain ⟨p, hp⟩ := Option.isSome_iff_exists.mp h
  rw [updateProjectStatus_eq s id st now p hp]
  exact ⟨by simp [mapFind_mapSet_self], by simp [mapFind_mapSet_self]⟩

theorem mirrorAt_updatePhase (s : MemoryStore) (id phaseName : String)
    (pd : PartialPhaseData) (now : Nat) (h : (mapFind s.projects id).isSome) :
    MirrorAt (s.updatePhase id phaseName pd now) id := by
  obtain ⟨p, hp⟩ := Option.isSome_iff_exists.mp h
  rw [updatePhase_eq s id phaseName pd now p hp]
  exact ⟨by simp [mapFind_mapSet_self], by simp [mapFind_mapSet_self]⟩

theorem mirrorAt_storeArtifact (s : MemoryStore) (id key value : String) (now : Nat)
    (h : (mapFind s.projects id).isSome) :
    MirrorAt (s.storeArtifact id key value now) id := by
  obtain ⟨p, hp⟩ := Option.isSome_iff_exists.mp h
  simp only [MemoryStore.storeArtifact, hp, MemoryStore.persist, mapFind_mapSet_self]
  exact ⟨by simp [mapFind_mapSet_self], by simp [mapFind_mapSet_self]⟩

theorem mirrorAt_addConversation (s : MemoryStore) (id role msg : String)
    (md : Option (List (String × String))) (now : Nat)
    (h : (mapFind s.projects id).isSome) :
    MirrorAt (s.addConversation id role msg md now) id := by
  obtain ⟨p, hp⟩ := Option.isSome_iff_exists.mp h
  simp only [MemoryStore.addConversation, hp, MemoryStore.persist, mapFind_mapSet_self]
  exact ⟨by simp [mapFind_mapSet_self], by simp [mapFind_mapSet_self]⟩

theorem mirrorAt_persist (s : MemoryStore) (id : String)
    (h : (mapFind s.projects id).isSome) :
    MirrorAt (s.persist id) id ∧ (s.persist id).projects = s.projects := by
  obtain ⟨p, hp⟩ := Option.isSome_iff_exists.mp h
  simp only [MemoryStore.persist, hp]
  exact ⟨⟨by simp [hp], by simp [mapFind_mapSet_self, hp]⟩, trivial⟩

/-- Claim C7: creating a project, mutating it (status update, phase
update, artifact store, conversation append), persisting it, and then
reloading it from durable storage yields exactly the in-memory snapshot
at the moment of the last persist. -/
theorem C7_persist_roundtrip (s0 : MemoryStore) (newId purposeId purposeName : String)
    (ts : TechStack) (n0 : Nat) (st : ProjectStatus) (n1 : Nat) (phaseName : String)
    (pd : PartialPhaseData) (n2 : Nat) (key value : String) (n3 : Nat)
    (role msg : String) (md : Option (List (String × String))) (n4 : Nat) :
    ((((((((s0.createProject newId purposeId purposeName ts n0).2.updateProjectStatus
          newId st n1).updatePhase newId phaseName pd n2).storeArtifact newId key
          value n3).addConversation newId role msg md n4).persist newId).loadProject
        newId).1
      = (((((s0.createProject newId purposeId purposeName ts n0).2.updateProjectStatus
          newId st n1).updatePhase newId phaseName pd n2).storeArtifact newId key
          value n3).addConversation newId role msg md n4).getProject newId) ∧
    (((((((s0.createProject newId purposeId purposeName ts n0).2.updateProjectStatus
          newId st n1).updatePhase newId phaseName pd n2).storeArtifact newId key
          value n3).addConversation newId role msg md n4).persist newId).loadProject
        newId).1.isSome := by
  have h1 := mirrorAt_createProject s0 newId purposeId purposeName ts n0
  have h2 := mirrorAt_updateProjectStatus
    (s0.createProject newId purposeId purposeName ts n0).2 newId st n1 h1.1
  have h3 := mirrorAt_updatePhase _ newId phaseName pd n2 h2.1
  have h4 := mirrorAt_storeArtifact _ newId key value n3 h3.1
  have h5 := mirrorAt_addConversation _ newId role msg md n4 h4.1
  have h6 := mirrorAt_persist _ newId h5.1
  have hload := loadProject_fst
    ((((((s0.createProject newId purposeId purposeName ts n0).2.updateProjectStatus
      newId st n1).updatePhase newId phaseName pd n2).storeArtifact newId key
      value n3).addConversation newId role msg md n4).persist newId) newId
  rw [hload]
  have hdisk := h6.1.2
  have hproj := h6.2
  constructor
  · rw [hdisk, hproj]
    rfl
  · rw [hdisk, hproj]
    exact h5.1

/-- Counterexample to claim C2 as stated: for the registered workflow
`archFirst` whose first phase is `architecture`, `startWorkflow` sets the
project status to `requirements` — the hardcoded
`ProjectStatus.REQUIREMENTS` in the source — and not to the first phase's
mapped status `architecture`. -/
theorem C2_counterexample :
    c2Run.store.getCurrentProject.map ProjectContext.status
        = some ProjectStatus.requirements ∧
    statusMapLookup "architecture" = ProjectStatus.architecture ∧
    ProjectStatus.requirements ≠ ProjectStatus.architecture := by
  refine ⟨by decide, by decide, by decide⟩

/-- Claim C2 amended: a newly created project context has status
`initializing`; and for every named, registered, nonempty workflow
definition, calling `startWorkflow` when a current project exists marks
the definition's first phase in progress with the call's start timestamp,
publishes exactly that first phase's start-event and no other, and sets
the project status to the hardcoded `requirements` status (which agrees
with the phase→status mapping only when the first phase is
`requirements`, as in the default workflow). -/
theorem C2_startWorkflow_amended (s0 s : CoreSystem)
    (newId purposeId purposeName : String) (ts : TechStack) (n0 n1 : Nat)
    (wfName : String) (ph0 : WorkflowPhase) (rest : List WorkflowPhase)
    (p : ProjectContext)
    (hwf : mapFind s.flow.workflows wfName = some (ph0 :: rest))
    (hcur : s.store.currentProjectId = some p.id)
    (hf : mapFind s.store.projects p.id = some p) :
    ((s0.createProject newId purposeId purposeName ts n0).store.getCurrentProject.map
        ProjectContext.status = some ProjectStatus.initializing) ∧
    ∃ s2, s.startWorkflow wfName n1 = Except.ok (s2, [ph0.startEvent]) ∧
      s2.store.getCurrentProject.map ProjectContext.status
        = some ProjectStatus.requirements ∧
      ((s2.store.getCurrentProject.bind fun q => mapFind q.phases ph0.name).map
        PhaseData.status = some PhaseStatus.in_progress) ∧
      ((s2.store.getCurrentProject.bind fun q => mapFind q.phases ph0.name).map
        PhaseData.startedAt = some (some n1)) := by
  have hgc : s.store.getCurrentProject = some p := by
    rw [getCurrentProject_eq s.store p.id hcur, hf]
  have hupd := updateProjectStatus_eq s.store p.id ProjectStatus.requirements n1 p hf
  have hf2 : mapFind (s.store.updateProjectStatus p.id ProjectStatus.requirements n1).projects
      p.id = some (statusPatch p ProjectStatus.requirements n1) := by
    rw [hupd]
    exact mapFind_mapSet_self s.store.projects p.id (statusPatch p ProjectStatus.requirements n1)
  have hupd2 := updatePhase_eq (s.store.updateProjectStatus p.id ProjectStatus.requirements n1)
    p.id ph0.name
    { name := some ph0.name, status := some PhaseStatus.in_progress,
      startedAt := some (some n1) } n1
    (statusPatch p ProjectStatus.requirements n1) hf2
  constructor
  · simp [CoreSystem.createProject, createProject_eq, MemoryStore.getCurrentProject,
      mapFind_mapSet_self]
  · refine ⟨{ s with
        bus := s.bus.addToHistory { event := ph0.startEvent, timestamp := n1 },
        store := (s.store.updateProjectStatus p.id ProjectStatus.requirements
          n1).updatePhase p.id ph0.name
          { name := some ph0.name, status := some PhaseStatus.in_progress,
            startedAt := some (some n1) } n1,
        flow := { s.flow with isRunning := true, currentPhase := some ph0.name } },
      ?_, ?_, ?_, ?_⟩
    · simp only [CoreSystem.startWorkflow, hwf, hgc]
    · rw [hupd2, hupd]
      simp only [MemoryStore.getCurrentProject, hcur, mapFind_mapSet_self]
      simp [phasePatch, statusPatch]
    · rw [hupd2, hupd]
      simp only [MemoryStore.getCurrentProject, hcur, mapFind_mapSet_self]
      simp [phasePatch, statusPatch, mergePhaseData, mapFind_mapSet_self]
    · rw [hupd2, hupd]
      simp only [MemoryStore.getCurrentProject, hcur, mapFind_mapSet_self]
      simp [phasePatch, statusPatch, mergePhaseData, mapFind_mapSet_self]

/-- Witness for the amended C2: the default workflow started on a fresh
project. -/
theorem C2_startWorkflow_amended_witness :
    (mapFind (CoreSystem.createProject CoreSystem.init "w2" "todo" "Todo" {} 3).flow.workflows
        "default" = some (defaultWorkflow.head! :: defaultWorkflow.tail)) ∧
    ((CoreSystem.createProject CoreSystem.init "w2" "todo" "Todo" {} 3).store.currentProjectId
      = some (ProjectContext.id
        { id := "w2", purposeId := "todo", purposeName := "Todo", techStack := {},
          status := ProjectStatus.initializing, createdAt := 3, updatedAt := 3,
          phases := [], artifacts := [], conversationHistory := [], metadata := [] })) ∧
    ((CoreSystem.createProject CoreSystem.init "w2" "todo" "Todo" {} 3).store.getCurrentProject.map
        ProjectContext.status = some ProjectStatus.initializing) ∧
    ∃ s2, (CoreSystem.createProject CoreSystem.init "w2" "todo" "Todo" {} 3).startWorkflow
        "default" 5 = Except.ok (s2, [defaultWorkflow.head!.startEvent]) ∧
      s2.store.getCurrentProject.map ProjectContext.status
        = some ProjectStatus.requirements ∧
      ((s2.store.getCurrentProject.bind fun q => mapFind q.phases defaultWorkflow.head!.name).map
        PhaseData.status = some PhaseStatus.in_progress) ∧
      ((s2.store.getCurrentProject.bind fun q => mapFind q.phases defaultWorkflow.head!.name).map
        PhaseData.startedAt = some (some 5)) := by
  refine ⟨by decide, by decide, ?_⟩
  exact (C2_startWorkflow_amended CoreSystem.init
    (CoreSystem.createProject CoreSystem.init "w2" "todo" "Todo" {} 3)
    "w2" "todo" "Todo" {} 3 5 "default" defaultWorkflow.head! defaultWorkflow.tail
    { id := "w2", purposeId := "todo", purposeName := "Todo", techStack := {},
      status := ProjectStatus.initializing, createdAt := 3, updatedAt := 3,
      phases := [], artifacts := [], conversationHistory := [], metadata := [] }
    (by decide) (by decide) (by decide))

/-- Counterexample to claim C1 as stated: the one-phase custom workflow
`custom` is registered and made active by `startWorkflow`, yet publishing
its phase's declared complete-event `phase.design.complete` does not mark
the `design` phase record completed (it stays in progress), advances
nothing and emits nothing — because the engine's listeners are a fixed
enumeration of the six default complete-events and `proceedToNextPhase`
always consults the `default` definition. -/
theorem C1_counterexample :
    ((c1After.1.store.getCurrentProject.bind fun p => mapFind p.phases "design").map
        PhaseData.status = some PhaseStatus.in_progress) ∧
    c1After.2 = [] ∧
    c1After.1.store = c1Started.store := by
  refine ⟨by decide, by decide, by decide⟩

/-- Claim C1 amended: `registerWorkflow` adds a named definition without
wiring any listeners (it only sets the `workflows` map entry), and the
engine's subscriptions are the fixed enumeration of the six default
phases' complete-events: publishing any event outside that enumeration —
in particular a custom phase's complete-event — leaves the store and the
engine state unchanged and emits nothing, so a custom workflow with
phases outside the default vocabulary does not function without modifying
the engine. -/
theorem C1_registerWorkflow_amended :
    (∀ (flow : AutoFlow) (name : String) (phases : List WorkflowPhase),
      flow.registerWorkflow name phases
        = { flow with workflows := mapSet flow.workflows name phases }) ∧
    (∀ (s : CoreSystem) (inp : PublishInput), listenerPhaseOf inp.event = none →
      (s.publish inp).1.store = s.store ∧ (s.publish inp).1.flow = s.flow ∧
        (s.publish inp).2 = []) := by
  constructor
  · intro flow name phases
    rfl
  · intro s inp h
    simp [CoreSystem.publish, h]

/-- Witness for the amended C1 at the custom complete-event
`phase.design.complete` on the freshly constructed core. -/
theorem C1_registerWorkflow_amended_witness :
    listenerPhaseOf "phase.design.complete" = none ∧
    ((CoreSystem.init.publish { event := "phase.design.complete", now := 4 }).1.store
        = CoreSystem.init.store ∧
      (CoreSystem.init.publish { event := "phase.design.complete", now := 4 }).1.flow
        = CoreSystem.init.flow ∧
      (CoreSystem.init.publish { event := "phase.design.complete", now := 4 }).2 = []) :=
  ⟨by decide, C1_registerWorkflow_amended.2 CoreSystem.init
    { event := "phase.design.complete", now := 4 } (by decide)⟩

/-- Counterexample to claim C5 as stated: after the complete-event of
`documentation` (whose Phase Spec has no next phase) the project status
does become `completed`, but the engine's listeners stay subscribed and
ignore `isRunning`, so a later `phase.requirements.complete` publication
still makes the engine publish a further start-event
(`phase.architecture.start`) — refuting "never publishes any further
phase start-event afterwards". -/
theorem C5_counterexample :
    c5Done.store.getCurrentProject.map ProjectContext.status
        = some ProjectStatus.completed ∧
    (c5Done.publish { event := EventType.PHASE_REQUIREMENTS_COMPLETE, now := 13 }).2
        = [EventType.PHASE_ARCHITECTURE_START] := by
  refine ⟨by decide, by decide⟩

/-- Claim C5 amended: when the complete-event of a phase whose Phase Spec
in the default definition has no next phase is published, the project's
status becomes `completed`, the engine's dispatch of that event publishes
no start-event, and `isRunning` is cleared; the engine's complete-event
listeners remain subscribed, however, so only a further externally
published complete-event can cause another start-event. -/
theorem C5_final_phase_amended (s : CoreSystem) (inp : PublishInput) (ph : String)
    (p : ProjectContext)
    (hl : listenerPhaseOf inp.event = some ph)
    (hwf : mapFind s.flow.workflows "default" = some defaultWorkflow)
    (hcur : s.store.currentProjectId = some p.id)
    (hf : mapFind s.store.projects p.id = some p)
    (hnext : (defaultWorkflow.find? (fun q => q.name = ph)).map WorkflowPhase.nextPhase
      = some none) :
    ((s.publish inp).1.store.getCurrentProject.map ProjectContext.status
        = some ProjectStatus.completed) ∧
    (s.publish inp).2 = [] ∧
    (s.publish inp).1.flow.isRunning = false := by
  have hgc : s.store.getCurrentProject = some p := by
    rw [getCurrentProject_eq s.store p.id hcur, hf]
  obtain ⟨spec, hfind, hnone⟩ : ∃ spec,
      defaultWorkflow.find? (fun q => q.name = ph) = some spec ∧ spec.nextPhase = none := by
    cases hq : defaultWorkflow.find? (fun q => q.name = ph) with
    | none => rw [hq] at hnext; simp at hnext
    | some spec =>
      rw [hq] at hnext
      simp at hnext
      exact ⟨spec, rfl, hnext⟩
  have hupd := updatePhase_eq s.store p.id ph
    { name := some ph, status := some PhaseStatus.completed,
      completedAt := some (some inp.now), result := some inp.result,
      artifacts := some inp.artifacts } inp.now p hf
  refine ⟨?_, ?_, ?_⟩ <;>
    (simp only [CoreSystem.publish, hl, hgc]
     rw [hupd]
     simp only [proceedToNextPhase, hwf, hfind, hnone]
     try simp only [MemoryStore.getCurrentProject, hcur, mapFind_mapSet_self,
       MemoryStore.updateProjectStatus, MemoryStore.persist, phasePatch]
     try simp [statusPatch, mapFind_mapSet_self])

/-- Witness for the amended C5: the documentation complete-event on a
store holding one freshly created project. -/
theorem C5_final_phase_amended_witness :
    listenerPhaseOf c5WitnessInput.event = some "documentation" ∧
    mapFind c5WitnessSys.flow.workflows "default" = some defaultWorkflow ∧
    c5WitnessSys.store.currentProjectId = some c5WitnessProject.id ∧
    mapFind c5WitnessSys.store.projects c5WitnessProject.id = some c5WitnessProject ∧
    (defaultWorkflow.find? (fun q => q.name = "documentation")).map
        WorkflowPhase.nextPhase = some none ∧
    (((c5WitnessSys.publish c5WitnessInput).1.store.getCurrentProject.map
        ProjectContext.status = some ProjectStatus.completed) ∧
      (c5WitnessSys.publish c5WitnessInput).2 = [] ∧
      (c5WitnessSys.publish c5WitnessInput).1.flow.isRunning = false) :=
  ⟨by decide, by decide, by decide, by decide, by decide,
    C5_final_phase_amended c5WitnessSys c5WitnessInput "documentation" c5WitnessProject
      (by decide) (by decide) (by decide) (by decide) (by decide)⟩

theorem proceed_preserves (flow : AutoFlow) (store : MemoryStore) (ph : String) (now : Nat)
    (p0 : ProjectContext) (hc : store.currentProjectId = some p0.id)
    (hf : mapFind store.projects p0.id = some p0)
    (h0 : inProgCount p0.phases = 0) :
    ∀ q, (proceedToNextPhase flow store ph now).2.1.getCurrentProject = some q →
      (proceedToNextPhase flow store ph now).2.1.currentProjectId = some q.id ∧
      inProgCount q.phases ≤ 1 := by
  have hgc : store.getCurrentProject = some p0 := by
    rw [getCurrentProject_eq store p0.id hc, hf]
  intro q hq
  cases hw : mapFind flow.workflows "default" with
  | none =>
    simp only [proceedToNextPhase, hw] at hq ⊢
    rw [hgc] at hq
    injection hq with hq
    subst hq
    exact ⟨hc, by omega⟩
  | some wf =>
    cases hfind : wf.find? (fun phase => phase.name = ph) with
    | none =>
      simp only [proceedToNextPhase, hw, hfind] at hq ⊢
      rw [hgc] at hq
      injection hq with hq
      subst hq
      exact ⟨hc, by omega⟩
    | some cur =>
      cases hnp : cur.nextPhase with
      | none =>
        simp only [proceedToNextPhase, hw, hfind, hnp, hgc] at hq ⊢
        rw [updateProjectStatus_eq store p0.id ProjectStatus.completed now p0 hf] at hq ⊢
        simp only [MemoryStore.getCurrentProject, hc, mapFind_mapSet_self] at hq
        injection hq with hq
        subst hq
        refine ⟨by simp [statusPatch, hc], ?_⟩
        simp only [statusPatch]
        omega
      | some nxt =>
        cases hfind2 : wf.find? (fun phase => phase.name = nxt) with
        | none =>
          simp only [proceedToNextPhase, hw, hfind, hnp, hfind2] at hq ⊢
          rw [hgc] at hq
          injection hq with hq
          subst hq
          exact ⟨hc, by omega⟩
        | some nxtPhase =>
          simp only [proceedToNextPhase, hw, hfind, hnp, hfind2, hgc] at hq ⊢
          rw [updateProjectStatus_eq store p0.id (statusMapLookup nxt) now p0 hf] at hq ⊢
          rw [updatePhase_eq _ p0.id nxt
            { name := some nxt, status := some PhaseStatus.in_progress,
              startedAt := some (some now) } now (statusPatch p0 (statusMapLookup nxt) now)
            (mapFind_mapSet_self store.projects p0.id
              (statusPatch p0 (statusMapLookup nxt) now))] at hq ⊢
          simp only [MemoryStore.getCurrentProject, hc, mapFind_mapSet_self] at hq
          injection hq with hq
          subst hq
          refine ⟨by simp [phasePatch, statusPatch, hc], ?_⟩
          simp only [phasePatch, statusPatch]
          exact inProgCount_mapSet_le_one p0.phases nxt _ h0

theorem publish_preserves_inv (s : CoreSystem) (inp : PublishInput)
    (hinv : InvCurrentProject s) (hord : orderlyHead s inp = true) :
    InvCurrentProject (s.publish inp).1 := by
  unfold orderlyHead at hord
  cases hl : listenerPhaseOf inp.event with
  | none =>
    simp only [hl] at hord
    exact Bool.noConfusion hord
  | some ph =>
    simp only [hl] at hord
    cases hgc : s.store.getCurrentProject with
    | none =>
      simp only [hgc] at hord
      exact Bool.noConfusion hord
    | some p =>
      simp only [hgc] at hord
      cases hd : mapFind p.phases ph with
      | none =>
        simp only [hd] at hord
        exact Bool.noConfusion hord
      | some d =>
        simp only [hd, beq_iff_eq] at hord
        obtain ⟨hcurid, hcount⟩ := hinv p hgc
        have hf : mapFind s.store.projects p.id = some p := by
          rw [getCurrentProject_eq s.store p.id hcurid] at hgc
          exact hgc
        have hupd1 := updatePhase_eq s.store p.id ph
          { name := some ph, status := some PhaseStatus.completed,
            completedAt := some (some inp.now), result := some inp.result,
            artifacts := some inp.artifacts } inp.now p hf
        have hmerge : (mergePhaseData ((mapFind p.phases ph).getD
            { name := ph, status := PhaseStatus.pending, notes := some [] })
            { name := some ph, status := some PhaseStatus.completed,
              completedAt := some (some inp.now), result := some inp.result,
              artifacts := some inp.artifacts }).status = PhaseStatus.completed := by
          simp [mergePhaseData]
        have h0 : inProgCount (phasePatch p ph
            { name := some ph, status := some PhaseStatus.completed,
              completedAt := some (some inp.now), result := some inp.result,
              artifacts := some inp.artifacts } inp.now).phases = 0 := by
          simp only [phasePatch]
          refine inProgCount_mapSet_away p.phases ph d _ hd hord hcount ?_
          rw [hmerge]
          intro hcontra
          exact PhaseStatus.noConfusion hcontra
        have hc1 : (s.store.updatePhase p.id ph
            { name := some ph, status := some PhaseStatus.completed,
              completedAt := some (some inp.now), result := some inp.result,
              artifacts := some inp.artifacts } inp.now).currentProjectId
            = some (phasePatch p ph
              { name := some ph, status := some PhaseStatus.completed,
                completedAt := some (some inp.now), result := some inp.result,
                artifacts := some inp.artifacts } inp.now).id := by
          rw [hupd1]
          simp [phasePatch, hcurid]
        have hf1 : mapFind (s.store.updatePhase p.id ph
            { name := some ph, status := some PhaseStatus.completed,
              completedAt := some (some inp.now), result := some inp.result,
              artifacts := some inp.artifacts } inp.now).projects
            (phasePatch p ph
              { name := some ph, status := some PhaseStatus.completed,
                completedAt := some (some inp.now), result := some inp.result,
                artifacts := some inp.artifacts } inp.now).id
            = some (phasePatch p ph
              { name := some ph, status := some PhaseStatus.completed,
                completedAt := some (some inp.now), result := some inp.result,
                artifacts := some inp.artifacts } inp.now) := by
          rw [hupd1]
          simp [phasePatch, mapFind_mapSet_self]
        have hproc := proceed_preserves s.flow
          (s.store.updatePhase p.id ph
            { name := some ph, status := some PhaseStatus.completed,
              completedAt := some (some inp.now), result := some inp.result,
              artifacts := some inp.artifacts } inp.now) ph inp.now
          (phasePatch p ph
            { name := some ph, status := some PhaseStatus.completed,
              completedAt := some (some inp.now), result := some inp.result,
              artifacts := some inp.artifacts } inp.now) hc1 hf1 h0
        intro q hq
        rcases hP : proceedToNextPhase s.flow
          (s.store.updatePhase p.id ph
            { name := some ph, status := some PhaseStatus.completed,
              completedAt := some (some inp.now), result := some inp.result,
              artifacts := some inp.artifacts } inp.now) ph inp.now
          with ⟨flowX, storeX, emitsX⟩
        rw [hP] at hproc
        simp only [CoreSystem.publish, hl, hgc, hP] at hq ⊢
        exact hproc q hq

theorem publishAll_preserves_inv (inps : List PublishInput) :
    ∀ s : CoreSystem, InvCurrentProject s → orderlyRun s inps = true →
      InvCurrentProject (s.publishAll inps) := by
  induction inps with
  | nil =>
    intro s h _
    simpa [CoreSystem.publishAll] using h
  | cons inp rest ih =>
    intro s h hord
    simp only [orderlyRun, Bool.and_eq_true] at hord
    simp only [CoreSystem.publishAll, List.foldl_cons]
    exact ih (s.publish inp).1 (publish_preserves_inv s inp h hord.1) hord.2

/-- Counterexample to claim C3 as stated: from the started default
workflow (requirements in progress), publishing the out-of-order
complete-event `phase.testing.complete` — a sequence the claim's state
space allows — leaves `requirements` in progress while also setting
`devops` in progress, so the phase map holds two in-progress records,
and neither of those phases is flagged parallel. -/
theorem C3_counterexample :
    c3Bad.store.getCurrentProject.map (fun p => inProgCount p.phases) = some 2 ∧
    ((c3Bad.store.getCurrentProject.bind fun p => mapFind p.phases "requirements").map
        PhaseData.status = some PhaseStatus.in_progress) ∧
    ((c3Bad.store.getCurrentProject.bind fun p => mapFind p.phases "devops").map
        PhaseData.status = some PhaseStatus.in_progress) ∧
    (defaultWorkflow.find? (fun q => q.name = "requirements")).map
        WorkflowPhase.isParallel = some none ∧
    (defaultWorkflow.find? (fun q => q.name = "devops")).map
        WorkflowPhase.isParallel = some none := by
  refine ⟨by decide, by decide, by decide, by decide, by decide⟩

/-- Claim C3 amended: under the started default workflow, for every
sequence of published complete-events in which each event names the phase
currently in progress on the current project (an orderly run — the shape
every actual run has, since collaborators complete the phase whose
start-event fired), the current project's phase map contains at most one
in-progress record at every reachable state. -/
theorem C3_at_most_one_in_progress_amended (inps : List PublishInput)
    (hord : orderlyRun c3Started inps = true) :
    ∀ p, (c3Started.publishAll inps).store.getCurrentProject = some p →
      inProgCount p.phases ≤ 1 := by
  have hbase : InvCurrentProject c3Started := by
    intro q hq
    have hP : c3Started.store.getCurrentProject
        = some { id := "p3", purposeId := "web-app", purposeName := "Web App",
                 techStack := {}, status := ProjectStatus.requirements,
                 createdAt := 10, updatedAt := 11,
                 phases := [("requirements",
                   { name := "requirements", status := PhaseStatus.in_progress,
                     startedAt := some 11, completedAt := none, result := none,
                     artifacts := none, notes := some [] })],
                 artifacts := [], conversationHistory := [], metadata := [] } := by
      decide
    rw [hP] at hq
    injection hq with hq
    subst hq
    exact ⟨by decide, by decide⟩
  intro p hp
  exact (publishAll_preserves_inv inps c3Started hbase hord p hp).2

/-- Witness for the amended C3: the orderly completion of `requirements`
yields a project with exactly one in-progress phase (`architecture`). -/
theorem C3_at_most_one_in_progress_amended_witness :
    orderlyRun c3Started [c3WitnessInput] = true ∧
    (c3Started.publishAll [c3WitnessInput]).store.getCurrentProject
      = some c3WitnessAfter ∧
    inProgCount c3WitnessAfter.phases ≤ 1 :=
  ⟨by decide, by decide,
    C3_at_most_one_in_progress_amended [c3WitnessInput] (by decide) c3WitnessAfter (by decide)⟩

end Autocursor
